import Mathlib

/-!
# Verification of the Home Inspection media-ingestion and report-synthesis pipeline

Shallow embedding of `src/logic.py` (class `HomeInspector`) and the report
serialization in `src/app.py`.  Python dictionaries are modelled as ordered
association lists with Python's insert-or-overwrite semantics; `json.loads` /
`json.dumps(·, indent=4)` are modelled by an executable JSON parser and
printer over an AST whose leaves are strings (the report schema demanded by
the prompt in `logic.py` has only string, array and object values, and Lean
strings range over Unicode scalar values, as CPython strings from decoded
JSON do in all non-degenerate cases).
-/

namespace HomeInspection

/-- JSON values as they appear in inspection reports: the schema the prompt in
`HomeInspector.generate_report` (src/logic.py:151-183) requires uses only
strings, arrays and objects, so numbers/booleans/null are not modelled. -/
inductive Json where
  | str : String → Json
  | arr : List Json → Json
  | obj : List (String × Json) → Json
deriving Repr

mutual
/-- Structural size of a JSON value, used as a fuel bound for the parser. -/
def Json.size : Json → Nat
  | .str _ => 1
  | .arr xs => 1 + Json.sizeList xs
  | .obj kvs => 1 + Json.sizeKVs kvs

/-- Size of a list of JSON values. -/
def Json.sizeList : List Json → Nat
  | [] => 0
  | x :: xs => 1 + Json.size x + Json.sizeList xs

/-- Size of a list of JSON object members. -/
def Json.sizeKVs : List (String × Json) → Nat
  | [] => 0
  | (_, v) :: kvs => 1 + Json.size v + Json.sizeKVs kvs
end

/-- Lowercase hex digit character for a nibble, as produced by CPython's
`json` encoder in `\uXXXX` escapes. -/
def hexDigitChar (n : Nat) : Char :=
  if n < 10 then Char.ofNat (48 + n) else Char.ofNat (87 + n)

/-- Four lowercase hex digits of `n < 0x10000`, most significant first. -/
def hex4 (n : Nat) : List Char :=
  [hexDigitChar (n / 4096 % 16), hexDigitChar (n / 256 % 16),
   hexDigitChar (n / 16 % 16), hexDigitChar (n % 16)]

/-- Escape one character the way `json.dumps` (default `ensure_ascii=True`)
does: `"` and backslash get two-character escapes, the common control
characters get their shorthand escapes, printable ASCII is emitted verbatim,
everything else becomes `\uXXXX` (a surrogate pair for astral characters). -/
def escChar (c : Char) : List Char :=
  if c = Char.ofNat 34 then [Char.ofNat 92, Char.ofNat 34]
  else if c = Char.ofNat 92 then [Char.ofNat 92, Char.ofNat 92]
  else if c = Char.ofNat 10 then [Char.ofNat 92, 'n']
  else if c = Char.ofNat 13 then [Char.ofNat 92, 'r']
  else if c = Char.ofNat 9 then [Char.ofNat 92, 't']
  else if c = Char.ofNat 8 then [Char.ofNat 92, 'b']
  else if c = Char.ofNat 12 then [Char.ofNat 92, 'f']
  else if 32 ≤ c.toNat ∧ c.toNat ≤ 126 then [c]
  else if c.toNat < 65536 then Char.ofNat 92 :: 'u' :: hex4 c.toNat
  else
    Char.ofNat 92 :: 'u' :: hex4 (55296 + (c.toNat - 65536) / 1024) ++
      Char.ofNat 92 :: 'u' :: hex4 (56320 + (c.toNat - 65536) % 1024)

/-- The double-quoted, escaped form of a string, as `json.dumps` emits it. -/
def encStr (s : String) : List Char :=
  Char.ofNat 34 :: (s.data.map escChar).flatten ++ [Char.ofNat 34]

/-- The newline-plus-indentation separator `json.dumps(·, indent=4)` inserts
before an element at nesting level `lvl`. -/
def newlineInd (lvl : Nat) : List Char :=
  '\n' :: List.replicate (4 * lvl) ' '

mutual
/-- `json.dumps(v, indent=4)` (src/app.py:184, src/app.py:110): strings are
escaped per `escChar`; empty containers print as `[]`/`{}`; non-empty
containers put each element on its own line indented four extra spaces, with
`", "`/`": "` separators collapsing to `,`-newline and `": "` as CPython does
when an indent is given. -/
def dumpsV (lvl : Nat) : Json → List Char
  | .str s => encStr s
  | .arr [] => ['[', ']']
  | .arr (x :: xs) =>
      '[' :: (newlineInd (lvl + 1) ++ dumpsV (lvl + 1) x ++
        dumpsTail (lvl + 1) xs ++ newlineInd lvl ++ [']'])
  | .obj [] => [Char.ofNat 123, Char.ofNat 125]
  | .obj (kv :: kvs) =>
      Char.ofNat 123 :: (newlineInd (lvl + 1) ++ dumpsMember (lvl + 1) kv ++
        dumpsMTail (lvl + 1) kvs ++ newlineInd lvl ++ [Char.ofNat 125])

/-- Remaining array elements, each preceded by `,` and a fresh indented line. -/
def dumpsTail (lvl : Nat) : List Json → List Char
  | [] => []
  | x :: xs => ',' :: (newlineInd lvl ++ dumpsV lvl x ++ dumpsTail lvl xs)

/-- One `"key": value` object member. -/
def dumpsMember (lvl : Nat) : String × Json → List Char
  | (k, v) => encStr k ++ ':' :: ' ' :: dumpsV lvl v

/-- Remaining object members, each preceded by `,` and a fresh indented line. -/
def dumpsMTail (lvl : Nat) : List (String × Json) → List Char
  | [] => []
  | kv :: kvs => ',' :: (newlineInd lvl ++ dumpsMember lvl kv ++ dumpsMTail lvl kvs)
end

/-- The serialized report text: `json.dumps(report, indent=4)`. -/
def json_dumps (j : Json) : String := ⟨dumpsV 0 j⟩

/-- JSON insignificant whitespace, as accepted between tokens by `json.loads`. -/
def isWs (c : Char) : Bool :=
  c = ' ' || c = '\n' || c = '\t' || c = Char.ofNat 13

/-- Drop leading insignificant whitespace. -/
def skipWs : List Char → List Char
  | [] => []
  | c :: cs => if isWs c then skipWs cs else c :: cs

/-- Value of a hex digit, both cases accepted as `json.loads` does. -/
def hexVal (c : Char) : Option Nat :=
  if 48 ≤ c.toNat ∧ c.toNat ≤ 57 then some (c.toNat - 48)
  else if 97 ≤ c.toNat ∧ c.toNat ≤ 102 then some (c.toNat - 87)
  else if 65 ≤ c.toNat ∧ c.toNat ≤ 70 then some (c.toNat - 55)
  else none

/-- Read exactly four hex digits, most significant first. -/
def parseHex4 : List Char → Option (Nat × List Char)
  | c3 :: c2 :: c1 :: c0 :: rest =>
    match hexVal c3, hexVal c2, hexVal c1, hexVal c0 with
    | some d3, some d2, some d1, some d0 =>
        some (((d3 * 16 + d2) * 16 + d1) * 16 + d0, rest)
    | _, _, _, _ => none
  | _ => none

/-- The character named by a single-character escape (`\"`, `\\`, `\/`, `\b`,
`\f`, `\n`, `\r`, `\t`). -/
def escName (e : Char) : Option Char :=
  if e = Char.ofNat 34 then some (Char.ofNat 34)
  else if e = Char.ofNat 92 then some (Char.ofNat 92)
  else if e = '/' then some '/'
  else if e = 'b' then some (Char.ofNat 8)
  else if e = 'f' then some (Char.ofNat 12)
  else if e = 'n' then some '\n'
  else if e = 'r' then some (Char.ofNat 13)
  else if e = 't' then some (Char.ofNat 9)
  else none

/-- Body of a JSON string after its opening quote, as `json.loads` scans it
(strict mode: raw control characters are rejected): returns the decoded
characters and the input after the closing quote.  A `\uXXXX` high surrogate
must be followed by a `\uXXXX` low surrogate and the pair is recombined into
one astral character; a lone surrogate is rejected (Lean strings hold Unicode
scalar values only, which is where this model diverges from CPython's
lone-surrogate tolerance — a corner never produced by `json.dumps` output of
scalar-valued strings). -/
def parseStrBody : Nat → List Char → Option (List Char × List Char)
  | 0, _ => none
  | _ + 1, [] => none
  | fuel + 1, c :: cs =>
    if c = Char.ofNat 34 then some ([], cs)
    else if c = Char.ofNat 92 then
      match cs with
      | [] => none
      | e :: cs1 =>
        if e = 'u' then
          match parseHex4 cs1 with
          | none => none
          | some (n, rest) =>
            if 55296 ≤ n ∧ n ≤ 56319 then
              match rest with
              | c1 :: c2 :: rest1 =>
                if c1 = Char.ofNat 92 ∧ c2 = 'u' then
                  match parseHex4 rest1 with
                  | none => none
                  | some (m, rest2) =>
                    if 56320 ≤ m ∧ m ≤ 57343 then
                      match parseStrBody fuel rest2 with
                      | some (out, r) =>
                          some (Char.ofNat (65536 + (n - 55296) * 1024 + (m - 56320)) :: out, r)
                      | none => none
                    else none
                else none
              | _ => none
            else if 56320 ≤ n ∧ n ≤ 57343 then none
            else
              match parseStrBody fuel rest with
              | some (out, r) => some (Char.ofNat n :: out, r)
              | none => none
        else
          match escName e with
          | some d =>
            match parseStrBody fuel cs1 with
            | some (out, r) => some (d :: out, r)
            | none => none
          | none => none
    else if c.toNat < 32 then none
    else
      match parseStrBody fuel cs with
      | some (out, r) => some (c :: out, r)
      | none => none

mutual
/-- One JSON value (string, array or object — the shapes of the report
schema), fuel-bounded recursive descent mirroring `json.loads`. -/
def parseValue : Nat → List Char → Option (Json × List Char)
  | 0, _ => none
  | fuel + 1, cs =>
    match skipWs cs with
    | [] => none
    | c :: cs1 =>
      if c = Char.ofNat 34 then
        match parseStrBody (cs1.length + 1) cs1 with
        | some (out, rest) => some (.str ⟨out⟩, rest)
        | none => none
      else if c = '[' then
        match skipWs cs1 with
        | [] => none
        | c2 :: cs2 =>
          if c2 = ']' then some (.arr [], cs2)
          else
            match parseValue fuel (c2 :: cs2) with
            | some (x, rest) =>
              match parseItems fuel rest with
              | some (xs, rest1) => some (.arr (x :: xs), rest1)
              | none => none
            | none => none
      else if c = Char.ofNat 123 then
        match skipWs cs1 with
        | [] => none
        | c2 :: cs2 =>
          if c2 = Char.ofNat 125 then some (.obj [], cs2)
          else
            match parseMember fuel (c2 :: cs2) with
            | some (kv, rest) =>
              match parseMembers fuel rest with
              | some (kvs, rest1) => some (.obj (kv :: kvs), rest1)
              | none => none
            | none => none
      else none

/-- After one array element: either `]` closes the array or `,` introduces
the next element. -/
def parseItems : Nat → List Char → Option (List Json × List Char)
  | 0, _ => none
  | fuel + 1, cs =>
    match skipWs cs with
    | [] => none
    | c :: cs1 =>
      if c = ']' then some ([], cs1)
      else if c = ',' then
        match parseValue fuel cs1 with
        | some (x, rest) =>
          match parseItems fuel rest with
          | some (xs, rest1) => some (x :: xs, rest1)
          | none => none
        | none => none
      else none

/-- One `"key": value` object member. -/
def parseMember : Nat → List Char → Option ((String × Json) × List Char)
  | 0, _ => none
  | fuel + 1, cs =>
    match skipWs cs with
    | [] => none
    | c :: cs1 =>
      if c = Char.ofNat 34 then
        match parseStrBody (cs1.length + 1) cs1 with
        | some (out, rest) =>
          match skipWs rest with
          | [] => none
          | c2 :: rest1 =>
            if c2 = ':' then
              match parseValue fuel rest1 with
              | some (v, rest2) => some ((⟨out⟩, v), rest2)
              | none => none
            else none
        | none => none
      else none

/-- After one object member: either `}` closes the object or `,` introduces
the next member. -/
def parseMembers : Nat → List Char → Option (List (String × Json) × List Char)
  | 0, _ => none
  | fuel + 1, cs =>
    match skipWs cs with
    | [] => none
    | c :: cs1 =>
      if c = Char.ofNat 125 then some ([], cs1)
      else if c = ',' then
        match parseMember fuel cs1 with
        | some (kv, rest) =>
          match parseMembers fuel rest with
          | some (kvs, rest1) => some (kv :: kvs, rest1)
          | none => none
        | none => none
      else none
end

/-- `json.loads(s)` restricted to the report value shapes: parse one value,
then require only whitespace to follow; `none` models a raised
`json.JSONDecodeError`. -/
def json_loads (s : String) : Option Json :=
  match parseValue (s.data.length + 1) s.data with
  | some (j, rest) => if skipWs rest = [] then some j else none
  | none => none

/-- The Python exceptions the embedded code can raise. -/
inductive PyError where
  | valueError (msg : String)
  | zeroDivisionError
  | jsonDecodeError (doc : String)
deriving DecidableEq, Repr

/-- Python's `str.lower()` restricted to one character (extension strings are
ASCII, where `str.lower()` adds 32 to uppercase letters). -/
def charLower (c : Char) : Char :=
  if 65 ≤ c.toNat ∧ c.toNat ≤ 90 then Char.ofNat (c.toNat + 32) else c

/-- Python's `str.lower()` as applied to file suffixes. -/
def strLower (s : String) : String := ⟨s.data.map charLower⟩

/-- `self.SUPPORTED_EXTENSIONS` (src/logic.py:31). -/
def SUPPORTED_EXTENSIONS : List String :=
  [".txt", ".pdf", ".doc", ".docx", ".jpg", ".jpeg", ".png"]

/-- The video suffixes dispatched to `_upload_video` (src/logic.py:122). -/
def VIDEO_EXTENSIONS : List String := [".mp4", ".mov", ".avi"]

/-- A `cv2.VideoCapture` handle as `process_video` observes it: whether the
file opened, the reported fps and frame count, and whether `cap.read()` at a
given seek offset (in seconds) succeeds. -/
structure VideoCapture where
  opened : Bool
  fps : ℚ
  frame_count : ℕ
  readAt : ℕ → Bool

/-- The offsets `range(0, int(duration), 5)` attempted by `process_video`
(src/logic.py:100): multiples of 5 strictly below the truncated duration. -/
def sampleTimestamps (durFloor : ℕ) : List ℕ :=
  (List.range ((durFloor + 4) / 5)).map (fun i => i * 5)

/-- `frame_filename = f"frame_{timestamp}.jpg"` (src/logic.py:104). -/
def frame_filename (timestamp : ℕ) : String :=
  "frame_" ++ toString timestamp ++ ".jpg"

/-- The key `f"video_{timestamp}s"` under which a frame path is stored in the
returned map (src/logic.py:107). -/
def frame_key (timestamp : ℕ) : String :=
  "video_" ++ toString timestamp ++ "s"

/-- `HomeInspector.process_video` (src/logic.py:86-110): raises `ValueError`
if the capture did not open; computes `duration = frame_count / fps` (a float
division, so `fps == 0` raises `ZeroDivisionError`); seeks at each timestamp
in `range(0, int(duration), 5)`; every successful read is written to
`<output_dir>/frame_<t>.jpg` and recorded in the returned dict under key
`video_<t>s`.  Failed reads are skipped silently. -/
def process_video (cap : VideoCapture) (video_path : String)
    (output_dir : String) : Except PyError (List (String × String)) :=
  if cap.opened = false then
    .error (.valueError ("Could not open video file: " ++ video_path))
  else if cap.fps = 0 then .error .zeroDivisionError
  else
    let duration : ℚ := (cap.frame_count : ℚ) / cap.fps
    let attempts := sampleTimestamps (Int.toNat ⌊duration⌋)
    .ok ((attempts.filter cap.readAt).map (fun t =>
      (frame_key t, output_dir ++ "/" ++ frame_filename t)))

/-- Python-dict assignment `d[k] = v` on an insertion-ordered association
list: an existing key keeps its position and gets the new value, a fresh key
is appended. -/
def dictInsert {α : Type} (d : List (String × α)) (k : String) (v : α) :
    List (String × α) :=
  if d.any (fun kv => kv.1 = k) then
    d.map (fun kv => if kv.1 = k then (k, v) else kv)
  else d ++ [(k, v)]

/-- A file under the standards directory tree as `_load_standards` sees it:
its base name (`file_path.name` — directory components are NOT part of the
dict key) and its extension (`file_path.suffix`). -/
structure SrcFile where
  name : String
  suffix : String
deriving DecidableEq, Repr

/-- `HomeInspector._load_standards` (src/logic.py:66-73) over the files
enumerated by `rglob`: a file whose lowercased suffix is supported is
uploaded; on success it is stored in `document_dict['building_standards']`
keyed by its bare name; an upload exception (`upload f = none`) is caught,
printed and the file skipped; unsupported files are skipped. -/
def load_standards {α : Type} (upload : SrcFile → Option α) :
    List SrcFile → List (String × α) → List (String × α)
  | [], d => d
  | f :: fs, d =>
    if strLower f.suffix ∈ SUPPORTED_EXTENSIONS then
      match upload f with
      | some u => load_standards upload fs (dictInsert d f.name u)
      | none => load_standards upload fs d
    else load_standards upload fs d

/-- `video_file.state.name` values observed while polling `genai.get_file`. -/
inductive RemoteState where
  | PROCESSING
  | ACTIVE
  | FAILED
deriving DecidableEq, Repr

/-- The remote lifecycle of one uploaded video: the state reported by
`genai.upload_file`, the state reported by the i-th `genai.get_file` poll,
and the file object stored into `user_data` on success. -/
structure VideoEnv (α : Type) where
  initState : RemoteState
  pollState : ℕ → RemoteState
  value : α

/-- The observed state sequence of a video: index 0 is the state right after
upload, index `i+1` the result of the i-th poll. -/
def VideoEnv.states {α : Type} (e : VideoEnv α) : ℕ → RemoteState
  | 0 => e.initState
  | i + 1 => e.pollState i

/-- The `while video_file.state.name == "PROCESSING"` loop of
`_upload_video` (src/logic.py:131-134): re-poll (sleeping 10 s each
iteration) until the state leaves PROCESSING.  The loop has no deadline, so
it is embedded with explicit fuel: `some i` means the loop exited after
observing the non-PROCESSING state at index `i`; `none` means the loop is
still running after `fuel` iterations. -/
def waitLoop (states : ℕ → RemoteState) : ℕ → ℕ → Option ℕ
  | 0, _ => none
  | fuel + 1, i =>
    if states i = .PROCESSING then waitLoop states fuel (i + 1) else some i

/-- `HomeInspector._upload_video` (src/logic.py:125-140): upload, poll until
the state leaves PROCESSING, then raise `ValueError(state.name)` if the final
state is FAILED, else store the file in `user_data` keyed by the video's base
name.  `none` means the polling loop has not finished within `fuel` polls. -/
def upload_video {α : Type} (env : String → VideoEnv α)
    (nameOf : String → String) (fuel : ℕ) (video_path : String)
    (user_data : List (String × α)) :
    Option (Except PyError (List (String × α))) :=
  let e := env video_path
  match waitLoop e.states fuel 0 with
  | none => none
  | some i =>
    if e.states i = .FAILED then some (.error (.valueError "FAILED"))
    else some (.ok (dictInsert user_data (nameOf video_path) e.value))

/-- `HomeInspector.upload_user_media` (src/logic.py:112-123): for each path,
a supported (non-video) suffix is uploaded with a per-file try/except that
merely logs failures (`upload p = none`); a video suffix goes through
`_upload_video`, whose `ValueError` is NOT caught here and aborts the whole
loop; other suffixes are skipped.  `suffixOf`/`nameOf` model
`Path(p).suffix`/`Path(p).name`. -/
def upload_user_media {α : Type} (suffixOf nameOf : String → String)
    (upload : String → Option α) (env : String → VideoEnv α) (fuel : ℕ) :
    List String → List (String × α) →
    Option (Except PyError (List (String × α)))
  | [], user_data => some (.ok user_data)
  | p :: ps, user_data =>
    if strLower (suffixOf p) ∈ SUPPORTED_EXTENSIONS then
      match upload p with
      | some u =>
          upload_user_media suffixOf nameOf upload env fuel ps
            (dictInsert user_data (nameOf p) u)
      | none => upload_user_media suffixOf nameOf upload env fuel ps user_data
    else if strLower (suffixOf p) ∈ VIDEO_EXTENSIONS then
      match upload_video env nameOf fuel p user_data with
      | none => none
      | some (.error e) => some (.error e)
      | some (.ok d) => upload_user_media suffixOf nameOf upload env fuel ps d
    else upload_user_media suffixOf nameOf upload env fuel ps user_data

/-- The server-side content cache created by `caching.CachedContent.create`
in `_initialize_model` (src/logic.py:44-53): its creation time (minutes) and
`ttl=datetime.timedelta(minutes=60)`. -/
structure CacheEntry where
  display_name : String
  createdAt : ℕ
  ttl : ℕ
deriving DecidableEq, Repr

/-- The cache as `_initialize_model` creates it at time `now` (minutes). -/
def initialize_model_cache (now : ℕ) : CacheEntry :=
  { display_name := "home_inspection_cache", createdAt := now, ttl := 60 }

/-- The mutable state of a `HomeInspector`: the cache handle assigned once in
`_initialize_model` and the `user_data` keys accumulated later.  `self.cache`
is assigned nowhere else in src/logic.py. -/
structure InspectorState where
  cache : CacheEntry
  user_data_names : List String

/-- The public operations run after construction (src/app.py drives exactly
these); none of their bodies assigns `self.cache`. -/
inductive SessionOp where
  | processVideo
  | uploadUserMedia (names : List String)
  | generateReport

/-- State transition of one operation: `process_video` and `generate_report`
leave inspector state unchanged; `upload_user_media` only extends
`user_data`.  No operation touches `self.cache`. -/
def sessionStep (s : InspectorState) : SessionOp → InspectorState
  | .processVideo => s
  | .uploadUserMedia ns => { s with user_data_names := s.user_data_names ++ ns }
  | .generateReport => s

/-- The inspector state after initialization at time `t` followed by an
arbitrary sequence of operations. -/
def sessionState (t : ℕ) (ops : List SessionOp) : InspectorState :=
  ops.foldl sessionStep
    { cache := initialize_model_cache t, user_data_names := [] }

/-- The tail of `HomeInspector.generate_report` (src/logic.py:205): the
service response text is handed to `json.loads` and the parsed value is
returned as the report with no schema validation and no cross-referencing of
`mediaReference` values; a parse failure raises `json.JSONDecodeError`
(whose `doc` attribute is the raw response text). -/
def generate_report (responseText : String) : Except PyError Json :=
  match json_loads responseText with
  | some j => .ok j
  | none => .error (.jsonDecodeError responseText)

/-- Modelled from the spec: the validation the spec requires of a synthesis
response (spec §3 Report invariant, §4.4) and that src/logic.py does not
implement — every `detailedInspection` finding whose `mediaReference` denotes
a frame must resolve to the id of a frame extracted in the current session,
and the required top-level key must be present.  Used only to compare the
code's behaviour against the spec's words. -/
def spec_findingRefsOk (j : Json) (knownFrameIds : List String) : Bool :=
  match j with
  | .obj kvs =>
    match kvs.lookup "detailedInspection" with
    | some (.arr findings) =>
      findings.all (fun f =>
        match f with
        | .obj fkvs =>
          match fkvs.lookup "mediaReference" with
          | some (.str r) =>
            if r.data.take 6 == "frame_".data then knownFrameIds.contains r
            else true
          | _ => true
        | _ => true)
    | _ => false
  | _ => false

/-- One finding of `detailedInspection`, with exactly the keys the prompt in
`generate_report` demands (src/logic.py:154-165). -/
structure Finding where
  area : String
  mediaReference : String
  timestamp : String
  condition : String
  complianceStatus : String
  issuesFound : List String
  referenceDoc : String
  referenceSection : String
  recommendation : String
deriving DecidableEq, Repr

/-- The `executiveSummary` object (src/logic.py:167-171). -/
structure ExecutiveSummary where
  overallCondition : String
  criticalIssues : List String
  recommendedActions : List String
deriving DecidableEq, Repr

/-- One `maintenanceSchedule` entry (src/logic.py:176-179). -/
structure ScheduleItem where
  frequency : String
  tasks : List String
deriving DecidableEq, Repr

/-- The `maintenanceNotes` object (src/logic.py:172-182). -/
structure MaintenanceNotes where
  recurringIssues : List String
  preventiveRecommendations : List String
  maintenanceSchedule : List ScheduleItem
  costConsiderations : List String
deriving DecidableEq, Repr

/-- A validated report: the exact JSON schema the prompt requires
(src/logic.py:151-183). -/
structure Report where
  detailedInspection : List Finding
  executiveSummary : ExecutiveSummary
  maintenanceNotes : MaintenanceNotes
deriving DecidableEq, Repr

/-- The JSON dictionary a `Finding` denotes, keys in schema order. -/
def Finding.toJson (f : Finding) : Json :=
  .obj [("area", .str f.area),
        ("mediaReference", .str f.mediaReference),
        ("timestamp", .str f.timestamp),
        ("condition", .str f.condition),
        ("complianceStatus", .str f.complianceStatus),
        ("issuesFound", .arr (f.issuesFound.map .str)),
        ("referenceDoc", .str f.referenceDoc),
        ("referenceSection", .str f.referenceSection),
        ("recommendation", .str f.recommendation)]

/-- The JSON dictionary an `ExecutiveSummary` denotes. -/
def ExecutiveSummary.toJson (e : ExecutiveSummary) : Json :=
  .obj [("overallCondition", .str e.overallCondition),
        ("criticalIssues", .arr (e.criticalIssues.map .str)),
        ("recommendedActions", .arr (e.recommendedActions.map .str))]

/-- The JSON dictionary a `ScheduleItem` denotes. -/
def ScheduleItem.toJson (s : ScheduleItem) : Json :=
  .obj [("frequency", .str s.frequency),
        ("tasks", .arr (s.tasks.map .str))]

/-- The JSON dictionary a `MaintenanceNotes` denotes. -/
def MaintenanceNotes.toJson (m : MaintenanceNotes) : Json :=
  .obj [("recurringIssues", .arr (m.recurringIssues.map .str)),
        ("preventiveRecommendations", .arr (m.preventiveRecommendations.map .str)),
        ("maintenanceSchedule", .arr (m.maintenanceSchedule.map ScheduleItem.toJson)),
        ("costConsiderations", .arr (m.costConsiderations.map .str))]

/-- The JSON dictionary a whole `Report` denotes. -/
def Report.toJson (r : Report) : Json :=
  .obj [("detailedInspection", .arr (r.detailedInspection.map Finding.toJson)),
        ("executiveSummary", r.executiveSummary.toJson),
        ("maintenanceNotes", r.maintenanceNotes.toJson)]

/-- The structured-data export of a report: `json.dumps(report, indent=4)`
(src/app.py:184, and the file written at src/app.py:110). -/
def toStructuredData (r : Report) : String :=
  json_dumps r.toJson

/-! ## Lemmas: hex digits and string escapes round-trip -/

theorem hexVal_hexDigitChar : ∀ d : Nat, d < 16 → hexVal (hexDigitChar d) = some d := by
  decide

theorem parseHex4_hex4 (n : Nat) (h : n < 65536) (rest : List Char) :
    parseHex4 (hex4 n ++ rest) = some (n, rest) := by
  have h3 : n / 4096 % 16 < 16 := Nat.mod_lt _ (by norm_num)
  have h2 : n / 256 % 16 < 16 := Nat.mod_lt _ (by norm_num)
  have h1 : n / 16 % 16 < 16 := Nat.mod_lt _ (by norm_num)
  have h0 : n % 16 < 16 := Nat.mod_lt _ (by norm_num)
  simp only [hex4, List.cons_append, List.nil_append, parseHex4,
    hexVal_hexDigitChar _ h3, hexVal_hexDigitChar _ h2,
    hexVal_hexDigitChar _ h1, hexVal_hexDigitChar _ h0]
  congr 1
  rw [Prod.mk.injEq]
  refine ⟨by omega, rfl⟩

theorem char_valid_range (c : Char) :
    c.toNat < 55296 ∨ (57343 < c.toNat ∧ c.toNat < 1114112) := by
  have h := c.valid
  unfold UInt32.isValidChar Nat.isValidChar at h
  exact h

theorem charOfNat_toNat (n : Nat) (h : n.isValidChar) :
    (Char.ofNat n).toNat = n := by
  unfold Char.ofNat
  rw [dif_pos h]
  unfold Char.ofNatAux Char.toNat
  simp [UInt32.toNat]

theorem char_toNat_isValid (c : Char) : Nat.isValidChar c.toNat := by
  unfold Nat.isValidChar
  exact char_valid_range c

theorem parseStrBody_esc (f : Nat) (e d : Char) (cs out r : List Char)
    (he : escName e = some d) (hu : ¬ e = 'u')
    (h : parseStrBody f cs = some (out, r)) :
    parseStrBody (f + 1) (Char.ofNat 92 :: e :: cs) = some (d :: out, r) := by
  simp only [parseStrBody]
  rw [if_neg (by decide)]
  simp only [if_true]
  rw [if_neg hu, he, h]

theorem parseStrBody_lit (f : Nat) (c : Char) (cs out r : List Char)
    (h34 : ¬ c = Char.ofNat 34) (h92 : ¬ c = Char.ofNat 92)
    (hge : 32 ≤ c.toNat)
    (h : parseStrBody f cs = some (out, r)) :
    parseStrBody (f + 1) (c :: cs) = some (c :: out, r) := by
  simp only [parseStrBody]
  rw [if_neg h34, if_neg h92, if_neg (by omega), h]

theorem parseStrBody_u (f : Nat) (n : Nat) (cs out r : List Char)
    (hlt : n < 65536) (hval : n.isValidChar)
    (h : parseStrBody f cs = some (out, r)) :
    parseStrBody (f + 1) (Char.ofNat 92 :: 'u' :: (hex4 n ++ cs)) =
      some (Char.ofNat n :: out, r) := by
  unfold Nat.isValidChar at hval
  simp only [parseStrBody]
  rw [if_neg (by decide)]
  simp only [if_true]
  rw [parseHex4_hex4 n hlt cs]
  dsimp only
  rw [if_neg (by omega), if_neg (by omega), h]

theorem parseStrBody_uu (f : Nat) (m : Nat) (cs out r : List Char)
    (hge : 65536 ≤ m) (hlt : m < 1114112)
    (h : parseStrBody f cs = some (out, r)) :
    parseStrBody (f + 1)
      (Char.ofNat 92 :: 'u' :: (hex4 (55296 + (m - 65536) / 1024) ++
        (Char.ofNat 92 :: 'u' :: (hex4 (56320 + (m - 65536) % 1024) ++ cs)))) =
      some (Char.ofNat m :: out, r) := by
  have hq : (m - 65536) / 1024 < 1024 := by omega
  unfold parseStrBody
  rw [if_neg (by decide)]
  simp only [if_true]
  rw [parseHex4_hex4 _ (by omega) _]
  dsimp only
  rw [if_pos (by omega)]
  rw [if_pos (And.intro rfl rfl)]
  rw [parseHex4_hex4 _ (by omega) _]
  dsimp only
  rw [if_pos (by omega), h]
  have harg : 65536 + (55296 + (m - 65536) / 1024 - 55296) * 1024 +
      (56320 + (m - 65536) % 1024 - 56320) = m := by omega
  rw [harg]

theorem parseStrBody_escChar (c : Char) (f : Nat) (cs out r : List Char)
    (h : parseStrBody f cs = some (out, r)) :
    parseStrBody (f + 1) (escChar c ++ cs) = some (c :: out, r) := by
  have hval := char_valid_range c
  unfold escChar
  split_ifs with h1 h2 h3 h4 h5 h6 h7 h8 h9
  · subst h1
    exact parseStrBody_esc f _ _ cs out r rfl (by decide) h
  · subst h2
    exact parseStrBody_esc f _ _ cs out r rfl (by decide) h
  · subst h3
    exact parseStrBody_esc f _ _ cs out r rfl (by decide) h
  · subst h4
    exact parseStrBody_esc f _ _ cs out r rfl (by decide) h
  · subst h5
    exact parseStrBody_esc f _ _ cs out r rfl (by decide) h
  · subst h6
    exact parseStrBody_esc f _ _ cs out r rfl (by decide) h
  · subst h7
    exact parseStrBody_esc f _ _ cs out r rfl (by decide) h
  · simp only [List.cons_append, List.nil_append]
    exact parseStrBody_lit f c cs out r h1 h2 h8.1 h
  · have := parseStrBody_u f c.toNat cs out r h9 (char_toNat_isValid c) h
    rwa [Char.ofNat_toNat] at this
  · have hge : 65536 ≤ c.toNat := by omega
    have hlt : c.toNat < 1114112 := by omega
    have := parseStrBody_uu f c.toNat cs out r hge hlt h
    rwa [Char.ofNat_toNat] at this

theorem parseStrBody_enc (l : List Char) :
    ∀ (fuel : Nat) (rest : List Char), l.length < fuel →
      parseStrBody fuel ((l.map escChar).flatten ++ (Char.ofNat 34 :: rest)) =
        some (l, rest) := by
  induction l with
  | nil =>
    intro fuel rest h
    match fuel, h with
    | f + 1, _ =>
      simp only [List.map_nil, List.flatten_nil, List.nil_append, parseStrBody]
      simp only [if_true]
  | cons c l ih =>
    intro fuel rest h
    match fuel, h with
    | f + 1, h =>
      have hl : l.length < f := by
        simp only [List.length_cons] at h
        omega
      simp only [List.map_cons, List.flatten_cons, List.append_assoc]
      exact parseStrBody_escChar c f _ l rest (ih f rest hl)

/-! ## Lemmas: whitespace handling and output shapes -/

theorem skipWs_cons (c : Char) (cs : List Char) (h : isWs c = false) :
    skipWs (c :: cs) = c :: cs := by
  simp [skipWs, h]

theorem skipWs_replicate_space (n : Nat) (cs : List Char) :
    skipWs (List.replicate n ' ' ++ cs) = skipWs cs := by
  induction n with
  | zero => simp
  | succ n ih =>
    simp only [List.replicate_succ, List.cons_append, skipWs]
    rw [if_pos (by decide)]
    exact ih

theorem skipWs_newlineInd (lvl : Nat) (cs : List Char) :
    skipWs (newlineInd lvl ++ cs) = skipWs cs := by
  simp only [newlineInd, List.cons_append, skipWs]
  rw [if_pos (by decide)]
  exact skipWs_replicate_space _ _

theorem parseValue_newlineInd (fuel lvl : Nat) (cs : List Char) :
    parseValue fuel (newlineInd lvl ++ cs) = parseValue fuel cs := by
  cases fuel with
  | zero => rfl
  | succ f =>
    unfold parseValue
    rw [skipWs_newlineInd]

theorem parseValue_space (fuel : Nat) (cs : List Char) :
    parseValue fuel (' ' :: cs) = parseValue fuel cs := by
  cases fuel with
  | zero => rfl
  | succ f =>
    unfold parseValue
    have : skipWs (' ' :: cs) = skipWs cs := by
      simp only [skipWs]
      rw [if_pos (by decide)]
    rw [this]

theorem dumpsV_head (lvl : Nat) (j : Json) :
    ∃ c cs, dumpsV lvl j = c :: cs ∧
      (c = Char.ofNat 34 ∨ c = '[' ∨ c = Char.ofNat 123) := by
  cases j with
  | str s =>
    refine ⟨Char.ofNat 34, (s.data.map escChar).flatten ++ [Char.ofNat 34],
      rfl, Or.inl rfl⟩
  | arr xs =>
    cases xs with
    | nil => exact ⟨'[', [']'], rfl, Or.inr (Or.inl rfl)⟩
    | cons x xs =>
      refine ⟨'[', newlineInd (lvl + 1) ++ dumpsV (lvl + 1) x ++
        dumpsTail (lvl + 1) xs ++ newlineInd lvl ++ [']'], rfl,
        Or.inr (Or.inl rfl)⟩
  | obj kvs =>
    cases kvs with
    | nil => exact ⟨Char.ofNat 123, [Char.ofNat 125], rfl, Or.inr (Or.inr rfl)⟩
    | cons kv kvs =>
      refine ⟨Char.ofNat 123, newlineInd (lvl + 1) ++ dumpsMember (lvl + 1) kv ++
        dumpsMTail (lvl + 1) kvs ++ newlineInd lvl ++ [Char.ofNat 125], rfl,
        Or.inr (Or.inr rfl)⟩

theorem escChar_length_pos (c : Char) : 1 ≤ (escChar c).length := by
  unfold escChar
  split_ifs <;> simp [hex4]

theorem flatten_escChar_length (l : List Char) :
    l.length ≤ ((l.map escChar).flatten).length := by
  induction l with
  | nil => simp
  | cons c l ih =>
    simp only [List.map_cons, List.flatten_cons, List.length_append,
      List.length_cons]
    have := escChar_length_pos c
    omega

/-! ## Lemmas: the printed form is at least as long as the parser fuel needed -/

mutual
theorem sizeLe_dumpsV (j : Json) : ∀ lvl, Json.size j ≤ (dumpsV lvl j).length := by
  cases j with
  | str s =>
    intro lvl
    simp [dumpsV, encStr, Json.size]
  | arr xs =>
    cases xs with
    | nil => intro lvl; simp [dumpsV, Json.size, Json.sizeList]
    | cons x xs =>
      intro lvl
      have h1 := sizeLe_dumpsV x (lvl + 1)
      have h2 := sizeLe_dumpsTail xs (lvl + 1)
      simp only [dumpsV, Json.size, Json.sizeList, List.length_cons,
        List.length_append, newlineInd, List.length_replicate]
      omega
  | obj kvs =>
    cases kvs with
    | nil => intro lvl; simp [dumpsV, Json.size, Json.sizeKVs]
    | cons kv kvs =>
      intro lvl
      have h1 := sizeLe_dumpsMember kv (lvl + 1)
      have h2 := sizeLe_dumpsMTail kvs (lvl + 1)
      simp only [dumpsV, Json.size, Json.sizeKVs, List.length_cons,
        List.length_append, newlineInd, List.length_replicate]
      omega

theorem sizeLe_dumpsMember (kv : String × Json) :
    ∀ lvl, Json.size kv.2 + 1 ≤ (dumpsMember lvl kv).length := by
  obtain ⟨k, v⟩ := kv
  intro lvl
  have h1 := sizeLe_dumpsV v lvl
  simp only [dumpsMember, encStr, List.length_append, List.length_cons]
  omega

theorem sizeLe_dumpsTail (xs : List Json) :
    ∀ lvl, Json.sizeList xs ≤ (dumpsTail lvl xs).length := by
  cases xs with
  | nil => intro lvl; simp [dumpsTail, Json.sizeList]
  | cons x xs =>
    intro lvl
    have h1 := sizeLe_dumpsV x lvl
    have h2 := sizeLe_dumpsTail xs lvl
    simp only [dumpsTail, Json.sizeList, List.length_cons, List.length_append,
      newlineInd, List.length_replicate]
    omega

theorem sizeLe_dumpsMTail (kvs : List (String × Json)) :
    ∀ lvl, Json.sizeKVs kvs ≤ (dumpsMTail lvl kvs).length := by
  cases kvs with
  | nil => intro lvl; simp [dumpsMTail, Json.sizeKVs]
  | cons kv kvs =>
    intro lvl
    have h1 := sizeLe_dumpsMember kv lvl
    have h2 := sizeLe_dumpsMTail kvs lvl
    simp only [dumpsMTail, Json.sizeKVs, List.length_cons, List.length_append,
      newlineInd, List.length_replicate]
    omega
end

theorem parseMember_newlineInd (fuel lvl : Nat) (cs : List Char) :
    parseMember fuel (newlineInd lvl ++ cs) = parseMember fuel cs := by
  cases fuel with
  | zero => rfl
  | succ f =>
    unfold parseMember
    rw [skipWs_newlineInd]

theorem dumpsMember_eq (lvl : Nat) (k : String) (v : Json) :
    dumpsMember lvl (k, v) =
      Char.ofNat 34 :: ((k.data.map escChar).flatten ++
        (Char.ofNat 34 :: ':' :: ' ' :: dumpsV lvl v)) := by
  simp [dumpsMember, encStr]

mutual
theorem parse_dumpsV (j : Json) : ∀ fuel, Json.size j ≤ fuel → ∀ lvl rest,
    parseValue fuel (dumpsV lvl j ++ rest) = some (j, rest) := by
  cases j with
  | str s =>
    intro fuel hfuel lvl rest
    simp only [Json.size] at hfuel
    obtain ⟨f, rfl⟩ : ∃ f, fuel = f + 1 := ⟨fuel - 1, by omega⟩
    unfold parseValue
    simp only [dumpsV, encStr, List.cons_append, List.append_assoc,
      List.singleton_append, List.nil_append]
    rw [skipWs_cons _ _ (by decide)]
    dsimp only
    rw [if_pos rfl]
    have hb : s.data.length <
        ((s.data.map escChar).flatten ++ Char.ofNat 34 :: rest).length + 1 := by
      have := flatten_escChar_length s.data
      simp only [List.length_append]
      omega
    rw [parseStrBody_enc s.data _ rest hb]
  | arr xs =>
    cases xs with
    | nil =>
      intro fuel hfuel lvl rest
      simp only [Json.size, Json.sizeList] at hfuel
      obtain ⟨f, rfl⟩ : ∃ f, fuel = f + 1 := ⟨fuel - 1, by omega⟩
      unfold parseValue
      simp only [dumpsV, List.cons_append, List.singleton_append, List.nil_append]
      rw [skipWs_cons _ _ (by decide)]
      dsimp only
      rw [if_neg (by decide)]
      simp only [if_true]
      rw [skipWs_cons _ _ (by decide)]
      dsimp only
      rw [if_pos rfl]
    | cons x xs =>
      intro fuel hfuel lvl rest
      simp only [Json.size, Json.sizeList] at hfuel
      obtain ⟨f, rfl⟩ : ∃ f, fuel = f + 1 := ⟨fuel - 1, by omega⟩
      have hx : Json.size x ≤ f := by omega
      have hxs : Json.sizeList xs + 1 ≤ f := by omega
      unfold parseValue
      simp only [dumpsV, List.cons_append, List.append_assoc,
        List.singleton_append, List.nil_append]
      rw [skipWs_cons _ _ (by decide)]
      dsimp only
      rw [if_neg (by decide)]
      simp only [if_true]
      rw [skipWs_newlineInd]
      obtain ⟨c0, cs0, hdv, hc0⟩ := dumpsV_head (lvl + 1) x
      have hws : isWs c0 = false := by
        rcases hc0 with h | h | h <;> subst h <;> decide
      have hne : ¬ c0 = ']' := by
        rcases hc0 with h | h | h <;> subst h <;> decide
      rw [hdv, List.cons_append, skipWs_cons _ _ hws]
      dsimp only
      rw [if_neg hne, ← List.cons_append, ← hdv]
      rw [parse_dumpsV x f hx (lvl + 1)
        (dumpsTail (lvl + 1) xs ++ (newlineInd lvl ++ ']' :: rest))]
      dsimp only
      rw [parse_dumpsTail xs f hxs lvl rest]
  | obj kvs =>
    cases kvs with
    | nil =>
      intro fuel hfuel lvl rest
      simp only [Json.size, Json.sizeKVs] at hfuel
      obtain ⟨f, rfl⟩ : ∃ f, fuel = f + 1 := ⟨fuel - 1, by omega⟩
      unfold parseValue
      simp only [dumpsV, List.cons_append, List.singleton_append, List.nil_append]
      rw [skipWs_cons _ _ (by decide)]
      dsimp only
      rw [if_neg (by decide), if_neg (by decide)]
      simp only [if_true]
      rw [skipWs_cons _ _ (by decide)]
      dsimp only
      rw [if_pos rfl]
    | cons kv kvs =>
      intro fuel hfuel lvl rest
      simp only [Json.size, Json.sizeKVs] at hfuel
      obtain ⟨f, rfl⟩ : ∃ f, fuel = f + 1 := ⟨fuel - 1, by omega⟩
      have hkv : Json.size kv.2 + 1 ≤ f := by omega
      have hkvs : Json.sizeKVs kvs + 1 ≤ f := by omega
      unfold parseValue
      simp only [dumpsV, List.cons_append, List.append_assoc,
        List.singleton_append, List.nil_append]
      rw [skipWs_cons _ _ (by decide)]
      dsimp only
      rw [if_neg (by decide), if_neg (by decide)]
      simp only [if_true]
      rw [skipWs_newlineInd]
      obtain ⟨k, v⟩ := kv
      rw [dumpsMember_eq, List.cons_append, skipWs_cons _ _ (by decide)]
      dsimp only
      rw [if_neg (by decide), ← List.cons_append, ← dumpsMember_eq]
      rw [parse_member (k, v) f hkv (lvl + 1)
        (dumpsMTail (lvl + 1) kvs ++ (newlineInd lvl ++ Char.ofNat 125 :: rest))]
      dsimp only
      rw [parse_dumpsMTail kvs f hkvs lvl rest]

theorem parse_member (kv : String × Json) :
    ∀ fuel, Json.size kv.2 + 1 ≤ fuel → ∀ lvl rest,
      parseMember fuel (dumpsMember lvl kv ++ rest) = some (kv, rest) := by
  obtain ⟨k, v⟩ := kv
  intro fuel hfuel lvl rest
  obtain ⟨f, rfl⟩ : ∃ f, fuel = f + 1 := ⟨fuel - 1, by omega⟩
  have hv : Json.size v ≤ f := by
    have h2 : Json.size v + 1 ≤ f + 1 := hfuel
    omega
  unfold parseMember
  rw [dumpsMember_eq]
  simp only [List.cons_append, List.append_assoc]
  rw [skipWs_cons _ _ (by decide)]
  dsimp only
  rw [if_pos rfl]
  have hb : k.data.length <
      ((k.data.map escChar).flatten ++
        (Char.ofNat 34 :: ':' :: ' ' :: dumpsV lvl v ++ rest)).length + 1 := by
    have := flatten_escChar_length k.data
    simp only [List.length_append, List.length_cons]
    omega
  have henc := parseStrBody_enc k.data
    (((k.data.map escChar).flatten ++
      (Char.ofNat 34 :: ':' :: ' ' :: dumpsV lvl v ++ rest)).length + 1)
    (':' :: ' ' :: dumpsV lvl v ++ rest) hb
  simp only [List.cons_append, List.append_assoc] at henc
  rw [henc]
  dsimp only
  rw [skipWs_cons _ _ (by decide)]
  dsimp only
  rw [if_pos rfl, parseValue_space, parse_dumpsV v f hv lvl rest]

theorem parse_dumpsTail (xs : List Json) :
    ∀ fuel, Json.sizeList xs + 1 ≤ fuel → ∀ lvl rest,
      parseItems fuel
        (dumpsTail (lvl + 1) xs ++ (newlineInd lvl ++ ']' :: rest)) =
        some (xs, rest) := by
  cases xs with
  | nil =>
    intro fuel hfuel lvl rest
    obtain ⟨f, rfl⟩ : ∃ f, fuel = f + 1 := ⟨fuel - 1, by omega⟩
    unfold parseItems
    simp only [dumpsTail, List.nil_append]
    rw [skipWs_newlineInd, skipWs_cons _ _ (by decide)]
    dsimp only
    rw [if_pos rfl]
  | cons x xs =>
    intro fuel hfuel lvl rest
    simp only [Json.sizeList] at hfuel
    obtain ⟨f, rfl⟩ : ∃ f, fuel = f + 1 := ⟨fuel - 1, by omega⟩
    have hx : Json.size x ≤ f := by omega
    have hxs : Json.sizeList xs + 1 ≤ f := by omega
    unfold parseItems
    simp only [dumpsTail, List.cons_append, List.append_assoc]
    rw [skipWs_cons _ _ (by decide)]
    dsimp only
    rw [if_neg (by decide)]
    simp only [if_true]
    rw [parseValue_newlineInd,
      parse_dumpsV x f hx (lvl + 1)
        (dumpsTail (lvl + 1) xs ++ (newlineInd lvl ++ ']' :: rest))]
    dsimp only
    rw [parse_dumpsTail xs f hxs lvl rest]

theorem parse_dumpsMTail (kvs : List (String × Json)) :
    ∀ fuel, Json.sizeKVs kvs + 1 ≤ fuel → ∀ lvl rest,
      parseMembers fuel
        (dumpsMTail (lvl + 1) kvs ++ (newlineInd lvl ++ Char.ofNat 125 :: rest)) =
        some (kvs, rest) := by
  cases kvs with
  | nil =>
    intro fuel hfuel lvl rest
    obtain ⟨f, rfl⟩ : ∃ f, fuel = f + 1 := ⟨fuel - 1, by omega⟩
    unfold parseMembers
    simp only [dumpsMTail, List.nil_append]
    rw [skipWs_newlineInd, skipWs_cons _ _ (by decide)]
    dsimp only
    rw [if_pos rfl]
  | cons kv kvs =>
    intro fuel hfuel lvl rest
    simp only [Json.sizeKVs] at hfuel
    obtain ⟨f, rfl⟩ : ∃ f, fuel = f + 1 := ⟨fuel - 1, by omega⟩
    have hkv : Json.size kv.2 + 1 ≤ f := by omega
    have hkvs : Json.sizeKVs kvs + 1 ≤ f := by omega
    unfold parseMembers
    simp only [dumpsMTail, List.cons_append, List.append_assoc]
    rw [skipWs_cons _ _ (by decide)]
    dsimp only
    rw [if_neg (by decide)]
    simp only [if_true]
    rw [parseMember_newlineInd,
      parse_member kv f hkv (lvl + 1)
        (dumpsMTail (lvl + 1) kvs ++ (newlineInd lvl ++ Char.ofNat 125 :: rest))]
    dsimp only
    rw [parse_dumpsMTail kvs f hkvs lvl rest]
end

theorem json_loads_json_dumps (j : Json) : json_loads (json_dumps j) = some j := by
  unfold json_loads json_dumps
  have hfuel : Json.size j ≤ (dumpsV 0 j).length + 1 :=
    le_trans (sizeLe_dumpsV j 0) (by omega)
  have h := parse_dumpsV j ((dumpsV 0 j).length + 1) hfuel 0 []
  rw [List.append_nil] at h
  show (match parseValue ((dumpsV 0 j).length + 1) (dumpsV 0 j) with
    | some (j, rest) => if skipWs rest = [] then some j else none
    | none => none) = some j
  rw [h]
  dsimp only
  rw [if_pos (show skipWs [] = [] from rfl)]

/-! ## Lemmas: frame sampling -/

theorem mem_sampleTimestamps (m t : Nat) :
    t ∈ sampleTimestamps m ↔ t % 5 = 0 ∧ t < m := by
  simp only [sampleTimestamps, List.mem_map, List.mem_range]
  constructor
  · rintro ⟨i, hi, rfl⟩
    omega
  · rintro ⟨h5, hlt⟩
    exact ⟨t / 5, by omega, by omega⟩

theorem length_sampleTimestamps (m : Nat) :
    (sampleTimestamps m).length = (m + 4) / 5 := by
  simp [sampleTimestamps]

theorem ceil_div_five (m : Nat) :
    ⌈(m : ℚ) / 5⌉ = ((m + 4) / 5 : ℕ) := by
  obtain ⟨n, hn⟩ : ∃ n, (m + 4) / 5 = n := ⟨_, rfl⟩
  have h1 : 5 * n ≤ m + 4 := by omega
  have h2 : m ≤ 5 * n := by omega
  have hq1 : (5 * n : ℚ) ≤ (m : ℚ) + 4 := by exact_mod_cast h1
  have hq2 : (m : ℚ) ≤ (5 * n : ℚ) := by exact_mod_cast h2
  rw [hn, Int.ceil_eq_iff]
  constructor
  · rw [lt_div_iff₀ (by norm_num : (0:ℚ) < 5)]
    push_cast
    linarith
  · rw [div_le_iff₀ (by norm_num : (0:ℚ) < 5)]
    push_cast
    linarith

theorem process_video_ok (cap : VideoCapture) (path dir : String)
    (hopen : cap.opened = true) (hfps : cap.fps ≠ 0) :
    process_video cap path dir = Except.ok
      (((sampleTimestamps (Int.toNat ⌊(cap.frame_count : ℚ) / cap.fps⌋)).filter
        cap.readAt).map (fun t => (frame_key t, dir ++ "/" ++ frame_filename t))) := by
  unfold process_video
  rw [if_neg (by simp [hopen]), if_neg hfps]

/-- C2 (amended): every frame whose extraction succeeds is persisted at path
`<output_dir>/frame_<t>.jpg` — the stem is derived from the offset but the
name carries a `.jpg` extension — and is returned to the caller under the
asset key `video_<t>s`, which is NOT the persisted file name. -/
theorem C2_frame_naming (cap : VideoCapture) (path dir : String)
    (l : List (String × String))
    (hopen : cap.opened = true) (hfps : cap.fps ≠ 0)
    (hok : process_video cap path dir = Except.ok l) :
    ∀ kv ∈ l, ∃ t : Nat, cap.readAt t = true ∧
      kv.1 = frame_key t ∧ kv.2 = dir ++ "/" ++ frame_filename t ∧
      frame_filename t = "frame_" ++ toString t ++ ".jpg" ∧
      frame_key t = "video_" ++ toString t ++ "s" := by
  rw [process_video_ok cap path dir hopen hfps] at hok
  obtain rfl : l = _ := (Except.ok.inj hok.symm)
  intro kv hkv
  rw [List.mem_map] at hkv
  obtain ⟨t, ht, rfl⟩ := hkv
  exact ⟨t, (List.mem_filter.mp ht).2, rfl, rfl, rfl, rfl⟩

/-- C2 witness: a one-second video read successfully at offset 0. -/
theorem C2_witness :
    (true = true) ∧ ((1 : ℚ) ≠ 0) ∧
    process_video ⟨true, 1, 1, fun _ => true⟩ "vid.mp4" "extracted_frames" =
      Except.ok [("video_0s", "extracted_frames/frame_0.jpg")] ∧
    (∀ kv ∈ [(("video_0s" : String), ("extracted_frames/frame_0.jpg" : String))],
      ∃ t : Nat, (fun (_ : Nat) => true) t = true ∧
        kv.1 = frame_key t ∧ kv.2 = "extracted_frames" ++ "/" ++ frame_filename t ∧
        frame_filename t = "frame_" ++ toString t ++ ".jpg" ∧
        frame_key t = "video_" ++ toString t ++ "s") := by
  have hok : process_video ⟨true, 1, 1, fun _ => true⟩ "vid.mp4" "extracted_frames" =
      Except.ok [("video_0s", "extracted_frames/frame_0.jpg")] := by
    rw [process_video_ok _ _ _ rfl (by norm_num)]
    norm_num
    rfl
  exact ⟨rfl, by norm_num, hok,
    C2_frame_naming ⟨true, 1, 1, fun _ => true⟩ "vid.mp4" "extracted_frames"
      _ rfl (by norm_num) hok⟩

/-- C2 counterexample: at offset 0 the persisted file is
`extracted_frames/frame_0.jpg` (not `frame_0`), and the asset id under which
it is returned is `video_0s`, which differs from both. -/
theorem C2_counterexample :
    process_video ⟨true, 1, 1, fun _ => true⟩ "vid.mp4" "extracted_frames" =
      Except.ok [("video_0s", "extracted_frames/frame_0.jpg")] ∧
    ("video_0s" : String) ≠ "frame_0" ∧
    frame_filename 0 ≠ "frame_0" ∧ frame_filename 0 = "frame_0.jpg" := by
  refine ⟨?_, by decide, by decide, rfl⟩
  rw [process_video_ok _ _ _ rfl (by norm_num)]
  norm_num
  rfl
/-- C3 (amended): sampling uses the fixed 5-second interval hardcoded in
`process_video`; the attempted offsets are exactly the multiples of 5
strictly below `int(duration)` — `ceil(int(D) / 5)` attempts, not
`ceil(D / 5)` — and every attempted offset is strictly below the true
duration D. -/
theorem C3_sampling (cap : VideoCapture) (path dir : String)
    (hopen : cap.opened = true) (hfps : 0 < cap.fps) :
    process_video cap path dir = Except.ok
      (((sampleTimestamps (Int.toNat ⌊(cap.frame_count : ℚ) / cap.fps⌋)).filter
        cap.readAt).map (fun t => (frame_key t, dir ++ "/" ++ frame_filename t))) ∧
    (sampleTimestamps (Int.toNat ⌊(cap.frame_count : ℚ) / cap.fps⌋)).length =
      Int.toNat ⌈((Int.toNat ⌊(cap.frame_count : ℚ) / cap.fps⌋ : ℚ)) / 5⌉ ∧
    (∀ t ∈ sampleTimestamps (Int.toNat ⌊(cap.frame_count : ℚ) / cap.fps⌋),
      (t : ℚ) < (cap.frame_count : ℚ) / cap.fps) ∧
    (∀ t : Nat, t ∈ sampleTimestamps (Int.toNat ⌊(cap.frame_count : ℚ) / cap.fps⌋) ↔
      t % 5 = 0 ∧ t < Int.toNat ⌊(cap.frame_count : ℚ) / cap.fps⌋) := by
  have hD : (0 : ℚ) ≤ (cap.frame_count : ℚ) / cap.fps :=
    div_nonneg (by positivity) (le_of_lt hfps)
  refine ⟨process_video_ok cap path dir hopen (ne_of_gt hfps), ?_, ?_, ?_⟩
  · rw [length_sampleTimestamps, ceil_div_five, Int.toNat_natCast]
  · intro t ht
    have hm := (mem_sampleTimestamps _ t).mp ht
    have h1 : (t : ℚ) < (Int.toNat ⌊(cap.frame_count : ℚ) / cap.fps⌋ : ℚ) := by
      exact_mod_cast hm.2
    have h2 : ((Int.toNat ⌊(cap.frame_count : ℚ) / cap.fps⌋ : ℤ) : ℚ) ≤
        (cap.frame_count : ℚ) / cap.fps := by
      rw [Int.toNat_of_nonneg (Int.le_floor.mpr (by simpa using hD))]
      exact Int.floor_le _
    push_cast at h2
    linarith
  · intro t
    exact mem_sampleTimestamps _ t

/-- C3 witness: a 12-second video (frame_count 12, fps 1): offsets 0, 5, 10. -/
theorem C3_witness :
    (true = true) ∧ ((0 : ℚ) < 1) ∧
    process_video ⟨true, 1, 12, fun _ => true⟩ "vid.mp4" "frames" =
      Except.ok [("video_0s", "frames/frame_0.jpg"), ("video_5s", "frames/frame_5.jpg"),
        ("video_10s", "frames/frame_10.jpg")] ∧
    sampleTimestamps (Int.toNat ⌊(12 : ℚ) / 1⌋) = [0, 5, 10] := by
  have hc := (C3_sampling ⟨true, 1, 12, fun _ => true⟩ "vid.mp4" "frames" rfl
    (by norm_num)).1
  refine ⟨rfl, by norm_num, ?_, ?_⟩
  · rw [hc]
    norm_num
    rfl
  · norm_num
    rfl

/-- C3 counterexample: a video with 11 frames at 2 fps has duration D = 5.5;
the claim demands `ceil(D / 5) = 2` sampling attempts, but the code truncates
the duration first (`int(5.5) = 5`) and makes exactly one attempt, at
offset 0. -/
theorem C3_counterexample :
    process_video ⟨true, 2, 11, fun _ => true⟩ "vid.mp4" "frames" =
      Except.ok [("video_0s", "frames/frame_0.jpg")] ∧
    ⌈((11 : ℚ) / 2) / 5⌉ = 2 ∧
    (sampleTimestamps (Int.toNat ⌊(11 : ℚ) / 2⌋)).length = 1 := by
  refine ⟨?_, by norm_num [Int.ceil_eq_iff], by norm_num; rfl⟩
  rw [process_video_ok _ _ _ rfl (by norm_num)]
  norm_num
  rfl

/-- C7 (amended): `process_video` raises only when the video cannot be
opened (ValueError); a zero-duration video — zero frames with a valid fps —
is not an error path: the sampling loop body never runs and the empty frame
map is returned to the caller. -/
theorem C7_decode_errors (cap : VideoCapture) (path dir : String) :
    (cap.opened = false →
      process_video cap path dir =
        Except.error (PyError.valueError ("Could not open video file: " ++ path))) ∧
    (cap.opened = true → cap.fps ≠ 0 → cap.frame_count = 0 →
      process_video cap path dir = Except.ok []) := by
  constructor
  · intro h
    unfold process_video
    rw [if_pos h]
  · intro ho hf h0
    rw [process_video_ok cap path dir ho hf, h0]
    norm_num
    intro a ha
    simp [sampleTimestamps] at ha

/-- C7 witness: an unopenable capture raises; an empty (0-frame) capture
returns the empty frame map. -/
theorem C7_witness :
    ((false : Bool) = false) ∧ ((true : Bool) = true) ∧ ((30 : ℚ) ≠ 0) ∧
    process_video ⟨false, 30, 100, fun _ => true⟩ "missing.mp4" "frames" =
      Except.error (PyError.valueError "Could not open video file: missing.mp4") ∧
    process_video ⟨true, 30, 0, fun _ => true⟩ "empty.mp4" "frames" =
      Except.ok [] := by
  exact ⟨rfl, rfl, by norm_num,
    (C7_decode_errors ⟨false, 30, 100, fun _ => true⟩ "missing.mp4" "frames").1 rfl,
    (C7_decode_errors ⟨true, 30, 0, fun _ => true⟩ "empty.mp4" "frames").2 rfl
      (by norm_num) rfl⟩

/-- C7 counterexample: a zero-duration video does NOT fail — `process_video`
returns an (empty) frame map, where the claim requires a DecodeError. -/
theorem C7_counterexample :
    process_video ⟨true, 30, 0, fun _ => true⟩ "empty.mp4" "frames" =
      Except.ok [] := by
  rw [process_video_ok _ _ _ rfl (by norm_num)]
  norm_num
  rfl
/-! ## Lemmas: the video polling loop -/

theorem waitLoop_none_of_processing (states : Nat → RemoteState)
    (h : ∀ k, states k = RemoteState.PROCESSING) :
    ∀ fuel i, waitLoop states fuel i = none := by
  intro fuel
  induction fuel with
  | zero => intro i; rfl
  | succ f ih =>
    intro i
    unfold waitLoop
    rw [if_pos (h i)]
    exact ih (i + 1)

/-- C5 (amended): the polling loop of `_upload_video` has no deadline at all:
while the remote keeps reporting PROCESSING it simply polls again (sleeping
10 s per iteration), so against a remote that never leaves PROCESSING the
wait produces no outcome — neither a TimeoutError (which does not exist in
the code) nor any other — after any number of polls, and the asset is never
stored nor failed. -/
theorem C5_unbounded_wait {α : Type} (env : String → VideoEnv α)
    (nameOf : String → String) (p : String) (d : List (String × α))
    (h : ∀ k, (env p).states k = RemoteState.PROCESSING) :
    ∀ fuel, upload_video env nameOf fuel p d = none := by
  intro fuel
  unfold upload_video
  dsimp only
  rw [waitLoop_none_of_processing _ h fuel 0]

/-- C5 witness: a remote stuck in PROCESSING, polled 1000 times (about 10000
seconds — far beyond any plausible maxWait), still yields no outcome. -/
theorem C5_witness :
    (∀ k, (VideoEnv.states (α := Nat)
      ⟨RemoteState.PROCESSING, fun _ => RemoteState.PROCESSING, 0⟩ k) =
        RemoteState.PROCESSING) ∧
    upload_video (fun _ => ⟨RemoteState.PROCESSING, fun _ => RemoteState.PROCESSING, 0⟩)
      (fun p => p) 1000 "walkthrough.mp4" [] = none := by
  have h : ∀ k, (VideoEnv.states (α := Nat)
      ⟨RemoteState.PROCESSING, fun _ => RemoteState.PROCESSING, 0⟩ k) =
        RemoteState.PROCESSING := by
    intro k
    cases k with
    | zero => rfl
    | succ k => rfl
  exact ⟨h, C5_unbounded_wait _ (fun p => p) "walkthrough.mp4" [] h 1000⟩

/-- C5 counterexample: the claim promises that once maxWait elapses the wait
terminates with a TimeoutError; but the code's loop, run against an asset
that stays in remote processing, has produced no outcome of any kind after
1000 polls (about 167 minutes of wall-clock waiting) — there is no maxWait
and no TimeoutError in `_upload_video`. -/
theorem C5_counterexample :
    upload_video (α := Nat)
      (fun _ => ⟨RemoteState.PROCESSING, fun _ => RemoteState.PROCESSING, 0⟩)
      (fun p => p) 1000 "walkthrough.mp4" [] = none := by
  have h : ∀ k, (VideoEnv.states (α := Nat)
      ⟨RemoteState.PROCESSING, fun _ => RemoteState.PROCESSING, 0⟩ k) =
        RemoteState.PROCESSING := by
    intro k
    cases k with
    | zero => rfl
    | succ k => rfl
  unfold upload_video
  dsimp only
  rw [waitLoop_none_of_processing _ h 1000 0]
/-- C4 (amended): when the remote reports FAILED for an uploaded video,
`_upload_video` raises `ValueError(state.name)`; `upload_user_media` does not
catch it (its try/except protects only non-video uploads), so the whole batch
loop aborts with that error: the result is the same whatever sibling paths
follow, and none of them is uploaded. -/
theorem C4_failure_aborts_batch {α : Type} (suffixOf nameOf : String → String)
    (upload : String → Option α) (env : String → VideoEnv α) (fuel : Nat)
    (p : String) (ps : List String) (d : List (String × α)) (i : Nat)
    (hs1 : strLower (suffixOf p) ∉ SUPPORTED_EXTENSIONS)
    (hs2 : strLower (suffixOf p) ∈ VIDEO_EXTENSIONS)
    (hw : waitLoop (VideoEnv.states (env p)) fuel 0 = some i)
    (hf : VideoEnv.states (env p) i = RemoteState.FAILED) :
    upload_user_media suffixOf nameOf upload env fuel (p :: ps) d =
      some (Except.error (PyError.valueError "FAILED")) := by
  have hu : upload_video env nameOf fuel p d =
      some (Except.error (PyError.valueError "FAILED")) := by
    unfold upload_video
    dsimp only
    rw [hw]
    dsimp only
    rw [if_pos hf]
  unfold upload_user_media
  rw [if_neg hs1, if_pos hs2, hu]

/-- C4 witness: a video whose upload lands directly in FAILED, followed by an
image sibling whose upload would succeed: the batch aborts with the
ValueError and the sibling is never stored. -/
theorem C4_witness :
    (strLower ".mp4" ∉ SUPPORTED_EXTENSIONS) ∧
    (strLower ".mp4" ∈ VIDEO_EXTENSIONS) ∧
    (waitLoop (VideoEnv.states (α := Nat)
      ⟨RemoteState.FAILED, fun _ => RemoteState.FAILED, 7⟩) 1 0 = some 0) ∧
    (VideoEnv.states (α := Nat)
      ⟨RemoteState.FAILED, fun _ => RemoteState.FAILED, 7⟩ 0 = RemoteState.FAILED) ∧
    upload_user_media (fun p => if p = "a.mp4" then ".mp4" else ".jpg")
      (fun p => p) (fun _ => some 7)
      (fun _ => ⟨RemoteState.FAILED, fun _ => RemoteState.FAILED, 7⟩) 1
      ["a.mp4", "b.jpg"] [] =
      some (Except.error (PyError.valueError "FAILED")) := by
  refine ⟨by decide, by decide, rfl, rfl, ?_⟩
  exact C4_failure_aborts_batch _ _ _ _ 1 "a.mp4" ["b.jpg"] [] 0
    (by decide) (by decide) rfl rfl

/-- C4 counterexample: with the same remote, uploading the sibling image
alone succeeds and stores it — but in a batch where the video fails first,
the call aborts with the video's ValueError and the sibling is not uploaded,
contradicting the claimed per-asset isolation. -/
theorem C4_counterexample :
    upload_user_media (fun p => if p = "a.mp4" then ".mp4" else ".jpg")
      (fun p => p) (fun _ => some 7)
      (fun _ => ⟨RemoteState.FAILED, fun _ => RemoteState.FAILED, 7⟩) 1
      ["a.mp4", "b.jpg"] [] =
      some (Except.error (PyError.valueError "FAILED")) ∧
    upload_user_media (fun p => if p = "a.mp4" then ".mp4" else ".jpg")
      (fun p => p) (fun _ => some 7)
      (fun _ => ⟨RemoteState.FAILED, fun _ => RemoteState.FAILED, 7⟩) 1
      ["b.jpg"] [] = some (Except.ok [("b.jpg", 7)]) := by
  exact ⟨rfl, rfl⟩
/-! ## Lemmas: dictionary insertion and corpus loading -/

theorem dictInsert_fresh {α : Type} (d : List (String × α)) (k : String) (v : α)
    (h : k ∉ d.map Prod.fst) : dictInsert d k v = d ++ [(k, v)] := by
  unfold dictInsert
  rw [if_neg]
  simp only [List.any_eq_true, decide_eq_true_eq, not_exists]
  intro x hx
  exact h (List.mem_map.mpr ⟨x, hx.1, hx.2⟩)

theorem load_standards_eq {α : Type} (upload : SrcFile → Option α) :
    ∀ (files : List SrcFile) (d : List (String × α)),
      (∀ f ∈ files, f.name ∉ d.map Prod.fst) →
      (files.map SrcFile.name).Nodup →
      load_standards upload files d =
        d ++ files.filterMap (fun f =>
          if strLower f.suffix ∈ SUPPORTED_EXTENSIONS then
            (upload f).map (fun u => (f.name, u))
          else none) := by
  intro files
  induction files with
  | nil => intro d _ _; simp [load_standards]
  | cons f fs ih =>
    intro d hd hnd
    simp only [List.map_cons, List.nodup_cons, List.mem_map] at hnd
    unfold load_standards
    by_cases hs : strLower f.suffix ∈ SUPPORTED_EXTENSIONS
    · rw [if_pos hs]
      cases hu : upload f with
      | some u =>
        dsimp only
        rw [dictInsert_fresh d f.name u (hd f (by simp))]
        rw [ih (d ++ [(f.name, u)]) ?_ hnd.2]
        · simp [List.filterMap_cons, hs, hu]
        · intro g hg
          simp only [List.map_append, List.mem_append]
          rintro (h1 | h2)
          · exact hd g (by simp [hg]) h1
          · simp at h2
            exact hnd.1 ⟨g, hg, h2⟩
      | none =>
        dsimp only
        rw [ih d (fun g hg => hd g (by simp [hg])) hnd.2]
        simp [List.filterMap_cons, hs, hu]
    · rw [if_neg hs]
      rw [ih d (fun g hg => hd g (by simp [hg])) hnd.2]
      simp [List.filterMap_cons, hs]

/-- C8 (confirmed): reference-corpus loading is per-file fault tolerant:
with distinct file names, the loaded corpus is exactly the supported files
whose upload succeeded, in order — failed uploads are merely omitted (after a
logged message) and never abort the load, which raises nothing. -/
theorem C8_partial_load {α : Type} (upload : SrcFile → Option α)
    (files : List SrcFile) (hnd : (files.map SrcFile.name).Nodup) :
    load_standards upload files [] =
      files.filterMap (fun f =>
        if strLower f.suffix ∈ SUPPORTED_EXTENSIONS then
          (upload f).map (fun u => (f.name, u))
        else none) := by
  have h := load_standards_eq upload files [] (by simp) hnd
  simpa using h

/-- C8 witness: five standards files with one failing upload yield exactly
the other four, and no error. -/
theorem C8_witness :
    (([⟨"s1.txt", ".txt"⟩, ⟨"s2.txt", ".txt"⟩, ⟨"s3.txt", ".txt"⟩,
        ⟨"s4.txt", ".txt"⟩, ⟨"s5.txt", ".txt"⟩] : List SrcFile).map
      SrcFile.name).Nodup ∧
    load_standards (fun f => if f.name == "s3.txt" then none else some f.name)
      [⟨"s1.txt", ".txt"⟩, ⟨"s2.txt", ".txt"⟩, ⟨"s3.txt", ".txt"⟩,
        ⟨"s4.txt", ".txt"⟩, ⟨"s5.txt", ".txt"⟩] [] =
      [("s1.txt", "s1.txt"), ("s2.txt", "s2.txt"),
        ("s4.txt", "s4.txt"), ("s5.txt", "s5.txt")] := by
  refine ⟨by decide, ?_⟩
  exact (C8_partial_load (fun f => if f.name == "s3.txt" then none else some f.name)
    [⟨"s1.txt", ".txt"⟩, ⟨"s2.txt", ".txt"⟩, ⟨"s3.txt", ".txt"⟩,
      ⟨"s4.txt", ".txt"⟩, ⟨"s5.txt", ".txt"⟩] (by decide)).trans rfl

/-- C10 (confirmed): both corpora are keyed by bare file name only: two
supported files with the same name (different directories, different
contents) collapse to a single dict entry holding the later upload, with no
error — and the same holds for two user-media files with the same base
name. -/
theorem C10_name_collision {α : Type} (upload : SrcFile → Option α)
    (f g : SrcFile) (u1 u2 : α)
    (hname : f.name = g.name)
    (hs1 : strLower f.suffix ∈ SUPPORTED_EXTENSIONS)
    (hs2 : strLower g.suffix ∈ SUPPORTED_EXTENSIONS)
    (hu1 : upload f = some u1) (hu2 : upload g = some u2)
    (suffixOf nameOf : String → String) (uploadP : String → Option α)
    (env : String → VideoEnv α) (fuel : Nat) (p1 p2 : String) (v1 v2 : α)
    (hp1 : strLower (suffixOf p1) ∈ SUPPORTED_EXTENSIONS)
    (hp2 : strLower (suffixOf p2) ∈ SUPPORTED_EXTENSIONS)
    (hpn : nameOf p1 = nameOf p2)
    (hv1 : uploadP p1 = some v1) (hv2 : uploadP p2 = some v2) :
    load_standards upload [f, g] [] = [(g.name, u2)] ∧
    upload_user_media suffixOf nameOf uploadP env fuel [p1, p2] [] =
      some (Except.ok [(nameOf p2, v2)]) := by
  constructor
  · unfold load_standards
    rw [if_pos hs1, hu1]
    unfold load_standards
    rw [if_pos hs2, hu2]
    unfold load_standards
    simp [dictInsert, hname]
  · unfold upload_user_media
    rw [if_pos hp1, hv1]
    unfold upload_user_media
    rw [if_pos hp2, hv2]
    unfold upload_user_media
    simp [dictInsert, hpn]

/-- C10 witness: `codes.pdf` appearing twice in the standards tree keeps only
the later upload; two user photos both named `x.jpg` keep only the later. -/
theorem C10_witness :
    (("codes.pdf" : String) = "codes.pdf") ∧
    (strLower ".pdf" ∈ SUPPORTED_EXTENSIONS) ∧
    (strLower ".PDF" ∈ SUPPORTED_EXTENSIONS) ∧
    load_standards (fun x => if x.suffix == ".pdf" then some 1 else some 2)
      [⟨"codes.pdf", ".pdf"⟩, ⟨"codes.pdf", ".PDF"⟩] [] = [("codes.pdf", 2)] ∧
    upload_user_media (fun _ => ".jpg") (fun _ => "x.jpg")
      (fun p => if p = "dir1/x.jpg" then some 1 else some 2)
      (fun _ => ⟨RemoteState.ACTIVE, fun _ => RemoteState.ACTIVE, 0⟩) 1
      ["dir1/x.jpg", "dir2/x.jpg"] [] = some (Except.ok [("x.jpg", 2)]) := by
  have h := C10_name_collision
    (fun x : SrcFile => if x.suffix == ".pdf" then some 1 else some 2)
    ⟨"codes.pdf", ".pdf"⟩ ⟨"codes.pdf", ".PDF"⟩ 1 2 rfl (by decide) (by decide)
    rfl rfl
    (fun _ => ".jpg") (fun _ => "x.jpg")
    (fun p => if p = "dir1/x.jpg" then some 1 else some 2)
    (fun _ => ⟨RemoteState.ACTIVE, fun _ => RemoteState.ACTIVE, 0⟩) 1
    "dir1/x.jpg" "dir2/x.jpg" 1 2 (by decide) (by decide) rfl rfl rfl
  exact ⟨rfl, by decide, by decide, h.1, h.2⟩

/-! ## Lemmas: the content cache is assigned once -/

theorem foldl_sessionStep_cache (ops : List SessionOp) :
    ∀ s : InspectorState, (ops.foldl sessionStep s).cache = s.cache := by
  induction ops with
  | nil => intro s; rfl
  | cons op ops ih =>
    intro s
    rw [List.foldl_cons, ih]
    cases op <;> rfl

/-- C6 (amended): the content cache is created exactly once, in
`_initialize_model`, with `ttl` of 60 minutes; no operation of the session
ever assigns `self.cache` again, so every later observation — whether before
or after the TTL has elapsed — sees the identical CacheEntry with the
original `createdAt`; no lazy (or any) rebuild exists in the code. -/
theorem C6_cache_created_once (t : Nat) (ops1 ops2 : List SessionOp) :
    (sessionState t ops1).cache = (sessionState t ops2).cache ∧
    (sessionState t ops1).cache = initialize_model_cache t ∧
    (initialize_model_cache t).createdAt = t ∧
    (initialize_model_cache t).ttl = 60 := by
  refine ⟨?_, ?_, rfl, rfl⟩
  · unfold sessionState
    rw [foldl_sessionStep_cache, foldl_sessionStep_cache]
  · unfold sessionState
    rw [foldl_sessionStep_cache]

/-- C6 counterexample: initialize at minute 0 and observe the cache at
minute 61, after the 60-minute TTL (0 + 60 ≤ 61) has elapsed: the observed
entry is still the entry created at time 0 — its createdAt is 0, not
strictly later — because nothing in the code rebuilds the cache. -/
theorem C6_counterexample :
    (sessionState 0 [SessionOp.processVideo, SessionOp.generateReport]).cache =
      initialize_model_cache 0 ∧
    (initialize_model_cache 0).createdAt + (initialize_model_cache 0).ttl ≤ 61 ∧
    ¬ 0 < (sessionState 0
      [SessionOp.processVideo, SessionOp.generateReport]).cache.createdAt := by
  exact ⟨rfl, by decide, by decide⟩
/-! ## Lemmas: the report-to-JSON encoding is injective -/

theorem str_injective : Function.Injective Json.str :=
  fun a b hab => Json.str.inj hab

theorem map_str_inj (l1 l2 : List String)
    (h : l1.map Json.str = l2.map Json.str) : l1 = l2 :=
  List.map_injective_iff.mpr str_injective h

theorem Finding_toJson_inj (f g : Finding)
    (h : Finding.toJson f = Finding.toJson g) : f = g := by
  cases f
  cases g
  simp only [Finding.toJson, Json.obj.injEq, List.cons.injEq, Prod.mk.injEq,
    true_and, and_true, Json.str.injEq, Json.arr.injEq] at h
  obtain ⟨h1, h2, h3, h4, h5, h6, h7, h8, h9⟩ := h
  have h6a := map_str_inj _ _ h6
  simp_all

theorem ScheduleItem_toJson_inj (a b : ScheduleItem)
    (h : ScheduleItem.toJson a = ScheduleItem.toJson b) : a = b := by
  cases a
  cases b
  simp only [ScheduleItem.toJson, Json.obj.injEq, List.cons.injEq, Prod.mk.injEq,
    true_and, and_true, Json.str.injEq, Json.arr.injEq] at h
  obtain ⟨h1, h2⟩ := h
  have h2a := map_str_inj _ _ h2
  simp_all

theorem ExecutiveSummary_toJson_inj (a b : ExecutiveSummary)
    (h : ExecutiveSummary.toJson a = ExecutiveSummary.toJson b) : a = b := by
  cases a
  cases b
  simp only [ExecutiveSummary.toJson, Json.obj.injEq, List.cons.injEq, Prod.mk.injEq,
    true_and, and_true, Json.str.injEq, Json.arr.injEq] at h
  obtain ⟨h1, h2, h3⟩ := h
  have h2a := map_str_inj _ _ h2
  have h3a := map_str_inj _ _ h3
  simp_all

theorem MaintenanceNotes_toJson_inj (a b : MaintenanceNotes)
    (h : MaintenanceNotes.toJson a = MaintenanceNotes.toJson b) : a = b := by
  cases a
  cases b
  simp only [MaintenanceNotes.toJson, Json.obj.injEq, List.cons.injEq, Prod.mk.injEq,
    true_and, and_true, Json.str.injEq, Json.arr.injEq] at h
  obtain ⟨h1, h2, h3, h4⟩ := h
  have h1a := map_str_inj _ _ h1
  have h2a := map_str_inj _ _ h2
  have h3a := List.map_injective_iff.mpr
    (fun x y hxy => ScheduleItem_toJson_inj x y hxy) h3
  have h4a := map_str_inj _ _ h4
  simp_all

theorem Report_toJson_inj (a b : Report)
    (h : Report.toJson a = Report.toJson b) : a = b := by
  cases a
  cases b
  simp only [Report.toJson, Json.obj.injEq, List.cons.injEq, Prod.mk.injEq,
    true_and, and_true, Json.arr.injEq] at h
  obtain ⟨h1, h2, h3⟩ := h
  have h1a := List.map_injective_iff.mpr
    (fun x y hxy => Finding_toJson_inj x y hxy) h1
  have h2a := ExecutiveSummary_toJson_inj _ _ h2
  have h3a := MaintenanceNotes_toJson_inj _ _ h3
  simp_all

/-- C9 (confirmed): the structured-data export is lossless and
round-trippable: re-parsing `json.dumps(report, indent=4)` with `json.loads`
recovers exactly the JSON dictionary of the report, and that dictionary
determines the report uniquely (deep equality with the original). -/
theorem C9_roundtrip (r : Report) :
    json_loads (toStructuredData r) = some (Report.toJson r) ∧
    ∀ r2 : Report, Report.toJson r2 = Report.toJson r → r2 = r := by
  constructor
  · unfold toStructuredData
    exact json_loads_json_dumps (Report.toJson r)
  · intro r2 h
    exact Report_toJson_inj r2 r h

/-- C9 witness: a concrete one-finding report serializes and re-parses to
its own JSON dictionary, and the dictionary pins down the report. -/
theorem C9_witness :
    json_loads (toStructuredData
      ⟨[⟨"Roof", "frame_5", "0:05", "Weathered", "Non-compliant",
          ["cracked shingles"], "IRC2021", "R905", "replace shingles"⟩],
        ⟨"fair", ["roof leak"], ["repair roof"]⟩,
        ⟨["moisture"], ["annual inspection"], [⟨"Monthly", ["check gutters"]⟩],
          ["roofing quote"]⟩⟩) =
      some (Report.toJson
        ⟨[⟨"Roof", "frame_5", "0:05", "Weathered", "Non-compliant",
            ["cracked shingles"], "IRC2021", "R905", "replace shingles"⟩],
          ⟨"fair", ["roof leak"], ["repair roof"]⟩,
          ⟨["moisture"], ["annual inspection"], [⟨"Monthly", ["check gutters"]⟩],
            ["roofing quote"]⟩⟩) ∧
    (⟨[⟨"Roof", "frame_5", "0:05", "Weathered", "Non-compliant",
          ["cracked shingles"], "IRC2021", "R905", "replace shingles"⟩],
        ⟨"fair", ["roof leak"], ["repair roof"]⟩,
        ⟨["moisture"], ["annual inspection"], [⟨"Monthly", ["check gutters"]⟩],
          ["roofing quote"]⟩⟩ : Report) =
      ⟨[⟨"Roof", "frame_5", "0:05", "Weathered", "Non-compliant",
          ["cracked shingles"], "IRC2021", "R905", "replace shingles"⟩],
        ⟨"fair", ["roof leak"], ["repair roof"]⟩,
        ⟨["moisture"], ["annual inspection"], [⟨"Monthly", ["check gutters"]⟩],
          ["roofing quote"]⟩⟩ := by
  refine ⟨(C9_roundtrip _).1, (C9_roundtrip _).2 _ rfl⟩

/-- C1 (amended): `generate_report` returns `json.loads(response.text)`
directly: a response that fails to parse raises `json.JSONDecodeError`
(whose `doc` carries the raw response text) — not a `SynthesisError` — and
ANY response that parses is returned as the accepted report, with no schema
validation and no cross-referencing of `mediaReference` values against the
extracted frames, even when that validation (as the spec defines it) fails. -/
theorem C1_no_validation (t : String) (j : Json) (ids : List String) :
    (json_loads t = some j → spec_findingRefsOk j ids = false →
      generate_report t = Except.ok j) ∧
    (json_loads t = none →
      generate_report t = Except.error (PyError.jsonDecodeError t)) := by
  constructor
  · intro hp _
    unfold generate_report
    rw [hp]
  · intro hp
    unfold generate_report
    rw [hp]

/-- C1 witness: the concrete service response `json.dumps` of
`{"detailedInspection": [{"mediaReference": "frame_999"}]}` parses, fails the
spec's frame-reference validation against an empty frame set, and is still
returned as an accepted report; a non-JSON response raises the decode error
carrying the raw text. -/
theorem C1_witness :
    (json_loads (json_dumps (Json.obj [("detailedInspection",
        Json.arr [Json.obj [("mediaReference", Json.str "frame_999")]])])) =
      some (Json.obj [("detailedInspection",
        Json.arr [Json.obj [("mediaReference", Json.str "frame_999")]])])) ∧
    (spec_findingRefsOk (Json.obj [("detailedInspection",
        Json.arr [Json.obj [("mediaReference", Json.str "frame_999")]])]) [] =
      false) ∧
    (generate_report (json_dumps (Json.obj [("detailedInspection",
        Json.arr [Json.obj [("mediaReference", Json.str "frame_999")]])])) =
      Except.ok (Json.obj [("detailedInspection",
        Json.arr [Json.obj [("mediaReference", Json.str "frame_999")]])])) ∧
    (json_loads "the model returned prose, not JSON" = none) ∧
    (generate_report "the model returned prose, not JSON" =
      Except.error (PyError.jsonDecodeError "the model returned prose, not JSON")) := by
  have hp := json_loads_json_dumps (Json.obj [("detailedInspection",
    Json.arr [Json.obj [("mediaReference", Json.str "frame_999")]])])
  have hnone : json_loads "the model returned prose, not JSON" = none := by rfl
  exact ⟨hp, rfl,
    (C1_no_validation _ _ []).1 hp rfl,
    hnone,
    (C1_no_validation "the model returned prose, not JSON"
      (Json.obj []) []).2 hnone⟩

/-- C1 counterexample: a parsed response whose only finding references
`frame_999` while no frame at all was extracted is returned as an accepted
report (`Except.ok`), not rejected — synthesis performs no `SynthesisError`
validation. -/
theorem C1_counterexample :
    generate_report (json_dumps (Json.obj [("detailedInspection",
        Json.arr [Json.obj [("mediaReference", Json.str "frame_999")]])])) =
      Except.ok (Json.obj [("detailedInspection",
        Json.arr [Json.obj [("mediaReference", Json.str "frame_999")]])]) ∧
    spec_findingRefsOk (Json.obj [("detailedInspection",
        Json.arr [Json.obj [("mediaReference", Json.str "frame_999")]])]) [] =
      false := by
  constructor
  · unfold generate_report
    rw [json_loads_json_dumps]
  · rfl
end HomeInspection
